import Mathlib

/-!
Verification of the phys2cvr regressor-synthesis core (phys2cvr/signal.py and
phys2cvr/regressors.py) against its natural-language specification.

The Python code is shallowly embedded over exact rational arithmetic:
numpy arrays become `List ℚ`, raised exceptions become `Except PyErr`,
and Python integer truncation / banker's rounding / slicing are embedded
explicitly.  `export_regressor` (phys2cvr/io.py) and `x_corr`
(phys2cvr/stats.py) are not part of the analysed sources; they are modelled
from the specification where noted.
-/

namespace Phys2cvr

/-- Python exception values raised by the embedded code.  `exception` stands
for the bare `raise Exception(...)` in `compute_bulk_shift`. -/
inductive PyErr where
  | typeError
  | valueError
  | indexError
  | importError
  | osError
  | notImplementedError
  | zeroDivisionError
  | exception
  deriving DecidableEq, Repr

/-- Warning-level diagnostics emitted through the logger. -/
inductive Warn where
  | underspecifiedTrial
  | missingLagMax
  deriving DecidableEq, Repr

/-- Python `int(q)`: truncation toward zero. -/
def pyTrunc (q : ℚ) : ℤ := if 0 ≤ q then ⌊q⌋ else ⌈q⌉

/-- Python 3 `round(q)` to an integer: round half to even. -/
def pyRound (q : ℚ) : ℤ :=
  let f := ⌊q⌋
  let r := q - f
  if r < 1 / 2 then f
  else if 1 / 2 < r then f + 1
  else if f % 2 = 0 then f else f + 1

/-- `np.finfo(float).eps` as an exact rational. -/
def npEps : ℚ := 1 / 2 ^ 52

/-- Python `max` of a list (`max` of a nonempty numpy vector); 0 on `[]`,
where CPython would raise instead. -/
def pyMax : List ℚ → ℚ
  | [] => 0
  | [x] => x
  | x :: y :: t => max x (pyMax (y :: t))

/-- Python `min` of a list; 0 on `[]`, where CPython would raise instead. -/
def pyMin : List ℚ → ℚ
  | [] => 0
  | [x] => x
  | x :: y :: t => min x (pyMin (y :: t))

/-- Mean of a numpy vector (`arr.mean()`); numpy yields `nan` on an empty
vector, embedded here as 0. -/
def npMean (l : List ℚ) : ℚ := l.sum / l.length

/-- Demeaning, `arr - arr.mean()`. -/
def demean (l : List ℚ) : List ℚ := l.map (fun x => x - npMean l)

/-- `np.linspace(a, b, n)`: n evenly spaced samples from a to b inclusive. -/
def linspace (a b : ℚ) (n : ℕ) : List ℚ :=
  match n with
  | 0 => []
  | 1 => [a]
  | m + 2 =>
    (List.range (m + 2)).map (fun i : ℕ => a + (b - a) * i / (m + 1))

/-- Number of elements of `np.arange(0, stop, 1)`. -/
def npArangeLen (stop : ℚ) : ℕ := (⌈stop⌉).toNat

/-- Evaluation of `scipy.interpolate.interp1d(xs, ys, fill_value="extrapolate")`
at one point, over a knot list (strictly increasing abscissae): linear
interpolation on each segment, linear extrapolation beyond both ends. -/
def interpEval : List (ℚ × ℚ) → ℚ → ℚ
  | [], _ => 0
  | [(_, y)], _ => y
  | (x0, y0) :: (x1, y1) :: rest, t =>
    if t ≤ x1 ∨ rest = [] then y0 + (t - x0) * (y1 - y0) / (x1 - x0)
    else interpEval ((x1, y1) :: rest) t

/-- `np.sort(np.unique(peaks))`: ascending, duplicate-free index list. -/
def npUniqueSort (l : List ℕ) : List ℕ := (l.mergeSort (fun a b => a ≤ b)).dedup

/-- Python slice `l[a:]` with a possibly negative start index. -/
def pySliceFrom {α : Type} (l : List α) (a : ℤ) : List α :=
  if a < 0 then l.drop (max (a + l.length) 0).toNat else l.drop a.toNat

/-- Python slice `l[a:b:-1]` (step -1) with CPython index clamping: a
negative index counts from the right, then the start is clamped into
`[-1, n-1]`; the produced elements run from index `a` down to `b + 1`. -/
def pySliceNegOne {α : Type} (d : α) (l : List α) (a b : ℤ) : List α :=
  let n : ℤ := l.length
  let s := if a < 0 then max (a + n) (-1) else min a (n - 1)
  let t := if b < 0 then max (b + n) (-1) else min b (n - 1)
  (List.range (s - t).toNat).map (fun k : ℕ => l.getD (s - (k : ℤ)).toNat d)

/-- Sliding windows of width `w` (`numpy.lib.stride_tricks.sliding_window_view`). -/
def slidingWindows {α : Type} (l : List α) (w : ℕ) : List (List α) :=
  (List.range (l.length + 1 - w)).map (fun i => (l.drop i).take w)

/-- `np.pad(l, (lp, rp), "mean")`: pad both sides with the vector's own mean. -/
def padMean (l : List ℚ) (lp rp : ℕ) : List ℚ :=
  List.replicate lp (npMean l) ++ l ++ List.replicate rp (npMean l)

/-- Python `str.lower()` (character-wise, as used on the ASCII kernel
names). -/
def pyLower (s : String) : String := String.mk (s.data.map Char.toLower)

/-! ### phys2cvr/signal.py -/

/-- Oversampled double-gamma mixture of `create_hrf` (signal.py:63-79):
`u = np.arange(0, p[6]/dt + 1) - 0` with `dt = (1/freq)/16`, sampled through
`gp x a`, which stands for `scipy.stats.gamma.pdf(x, a, scale=1)` (an
external library primitive; its IEEE-754 outputs are exact rationals, so it
is kept as an abstract parameter). -/
def hrfOversampled (gp : ℚ → ℚ → ℚ) (freq : ℚ) : List ℚ :=
  let dt : ℚ := 1 / freq / 16
  (List.range (npArangeLen (32 / dt + 1))).map
    (fun i : ℕ => (gp ((i : ℚ) * dt) 6 - gp ((i : ℚ) * dt) 16 / 6) / dt)

/-- Downsampling step of `create_hrf` (signal.py:81-82):
`time_axis = np.arange(0, int(p[6]/RT + 1)) * fMRI_T; hrf = hrf[time_axis]`. -/
def hrfSampled (gp : ℚ → ℚ → ℚ) (freq : ℚ) : List ℚ :=
  (List.range (pyTrunc (32 * freq + 1)).toNat).map
    (fun j => (hrfOversampled gp freq).getD (j * 16) 0)

/-- `create_hrf(freq)` (signal.py:49-90): sample the double-gamma mixture,
replace exact zeros by an epsilon-derived minimum, normalize by the peak.
`min(hrf[hrf > 10*eps])` on an empty selection raises `ValueError`. -/
def create_hrf (gp : ℚ → ℚ → ℚ) (freq : ℚ) : Except PyErr (List ℚ) :=
  let hrf := hrfSampled gp freq
  let pos := hrf.filter (fun x => 10 * npEps < x)
  match pos with
  | [] => .error .valueError
  | p :: ps =>
    let min_hrf0 := (1 / 10 ^ 9) * pyMin (p :: ps)
    let min_hrf := if min_hrf0 < 10 * npEps then 10 * npEps else min_hrf0
    let hrf2 := hrf.map (fun x => if x = 0 then min_hrf else x)
    .ok (hrf2.map (fun x => x / pyMax hrf2))

/-- `endtidal_interpolation(signal, peaks)` (signal.py:124-146): dedup and sort
the peaks, pull signal values there, linearly interpolate with extrapolation over
`np.arange(signal.size)`.  An out-of-range peak raises `IndexError` inside
`signal[peaks]`; fewer than two knots make `interp1d` raise `ValueError`. -/
def endtidal_interpolation (sig : List ℚ) (pidx : List ℕ) :
    Except PyErr (List ℚ) :=
  let peaks := npUniqueSort pidx
  if peaks.any (fun p => sig.length ≤ p) then .error .indexError
  else if peaks.length < 2 then .error .valueError
  else
    let knots := peaks.map (fun p => ((Nat.cast p : ℚ), sig.getD p 0))
    .ok ((List.range sig.length).map (fun i : ℕ => interpEval knots (i : ℚ)))

/-- `resample_signal_samples(ts, samples)` (signal.py:272-295): linear
interpolation of `ts` onto `np.linspace(0, len-1, samples)`; `interp1d`
raises `ValueError` when fewer than two source samples exist. -/
def resample_signal_samples (ts : List ℚ) (samples : ℕ) :
    Except PyErr (List ℚ) :=
  if ts.length < 2 then .error .valueError
  else
    let len_tp := ts.length
    let knots := (List.range len_tp).map (fun i => ((Nat.cast i : ℚ), ts.getD i 0))
    .ok ((linspace 0 ((len_tp : ℚ) - 1) samples).map (interpEval knots))

/-- `resample_signal_freqs(ts, freq1, freq2)` (signal.py:298-324):
`len_s = (len_tp - 1)/freq1`, target grid `np.linspace(0, len_s,
int(len_s*freq2) + 1)`.  `freq1 = 0` raises `ZeroDivisionError`; a negative
linspace count raises `ValueError`; `interp1d` needs two source samples. -/
def resample_signal_freqs (ts : List ℚ) (freq1 freq2 : ℚ) :
    Except PyErr (List ℚ) :=
  if freq1 = 0 then .error .zeroDivisionError
  else
    let len_tp := ts.length
    let len_s : ℚ := ((len_tp : ℚ) - 1) / freq1
    let count : ℤ := pyTrunc (len_s * freq2) + 1
    if count < 0 then .error .valueError
    else if len_tp < 2 then .error .valueError
    else
      let time_t := linspace 0 len_s len_tp
      let knots := time_t.zip ts
      .ok ((linspace 0 len_s count.toNat).map (interpEval knots))

/-- Response-function argument of `convolve_signal`, as a tagged value:
a string, a (numeric or non-numeric) array/list, a `PosixPath`, or `None`. -/
inductive RespFun where
  | str (s : String)
  | arr (xs : List ℚ)
  | arrNonNum
  | path (p : String)
  | pynone
  deriving DecidableEq, Repr

/-- The convolution kernel `convolve_signal` ends up using. -/
inductive KernelChoice where
  | skip
  | canonicalHRF
  | provider (name : String)
  | fromFile (p : String)
  | literal (xs : List ℚ)
  deriving DecidableEq, Repr

/-- Kernel resolution of `convolve_signal` (signal.py:195-260), with the
filesystem and the optional `phys2denoise` dependency abstracted as
`fileExists` and `providerAvailable`: a string that names an existing file
becomes a path, otherwise it is lowercased and `"none"` becomes `None`;
then arrays, `None`, `"hrf"`, the named external kernels, and paths are
tried in the source order, and anything else raises `NotImplementedError`. -/
def resolve_response_function (fileExists : String → Bool)
    (providerAvailable : Bool) (rf : RespFun) : Except PyErr KernelChoice :=
  let rf1 : RespFun :=
    match rf with
    | .str s =>
      if fileExists s then .path s
      else
        let t := pyLower s
        if t = "none" then .pynone else .str t
    | x => x
  match rf1 with
  | .arr xs => .ok (.literal xs)
  | .arrNonNum => .error .valueError
  | .pynone => .ok .skip
  | .str t =>
    if t = "hrf" then .ok .canonicalHRF
    else if t = "rrf" ∨ t = "crf" ∨ t = "icrf" then
      if providerAvailable then .ok (.provider t) else .error .importError
    else .error .notImplementedError
  | .path p =>
    if fileExists p then .ok (.fromFile p) else .error .osError

/-- Shape gate of `convolve_signal` (signal.py:190-194): after
`signal.squeeze()` the call is rejected iff `signal.ndim > 2`. -/
def convolve_signal_rejects_shape (shape : List ℕ) : Bool :=
  2 < (shape.filter (fun d => d ≠ 1)).length

/-- Shape gate of `compute_petco2hrf` (regressors.py:97-101): after
`co2.squeeze()` the call is rejected iff `co2.ndim > 1`. -/
def compute_petco2hrf_rejects_shape (shape : List ℕ) : Bool :=
  1 < (shape.filter (fun d => d ≠ 1)).length

/-! ### phys2cvr/io.py and phys2cvr/stats.py collaborators (not in src) -/

/-- Modelled from the spec: `export_regressor(values, target_sample_count,
path_prefix, suffix, extension) -> demeaned_values` from phys2cvr/io.py is
not among the analysed sources; per spec section 6 it demeans and persists a
regressor array, resampling to `target_sample_count` if needed (through the
Resampler, `resample_signal_samples`). -/
def export_regressor (row : List ℚ) (ntp : ℕ) : Except PyErr (List ℚ) :=
  if row.length = ntp then .ok (demean row)
  else
    match resample_signal_samples row ntp with
    | .ok r => .ok (demean r)
    | .error e => .error e

/-- Row-by-row export of a 2-D lag bank through `export_regressor`,
propagating the first failure. -/
def exportRegressorRows (rows : List (List ℚ)) (ntp : ℕ) :
    Except PyErr (List (List ℚ)) :=
  match rows with
  | [] => .ok []
  | r :: rest =>
    match export_regressor r ntp, exportRegressorRows rest ntp with
    | .ok e, .ok es => .ok (e :: es)
    | .error e, _ => .error e
    | .ok _, .error e => .error e

/-- Shape of the abstract cross-correlation primitive `x_corr` from
phys2cvr/stats.py (not among the analysed sources).  Modelled from the spec:
per spec section 6 it computes a correlation curve and its arg-extremum
(optionally of the absolute value) between two timeseries, offset-aware;
arguments are `(func_cut, petco2hrf, n_shifts, offset, abs_xcorr)` and the
components used by the caller are the extremal shift and the curve. -/
def XCorrFn : Type := List ℚ → List ℚ → Option ℤ → ℤ → Bool → ℕ × List ℚ

/-! ### phys2cvr/regressors.py -/

/-- Python truthiness of an optional float argument (`if x:`). -/
def pyTruthyQ : Option ℚ → Bool
  | none => false
  | some q => q ≠ 0

/-- Python truthiness of an optional integer argument (`if n:`). -/
def pyTruthyN : Option ℕ → Bool
  | none => false
  | some n => n ≠ 0

/-- Trial-aware windowing preamble of `compute_bulk_shift`
(regressors.py:179-204): Python truthiness on `trial_len` and `n_trials`
selects the branch; returns `(first_tp, n_shifts, warnings)`. -/
def bulk_shift_windowing (trial_len : Option ℚ) (n_trials : Option ℕ)
    (freq : ℚ) : ℤ × Option ℤ × List Warn :=
  if pyTruthyQ trial_len && pyTruthyN n_trials then
    let tl := trial_len.getD 0
    let nt := n_trials.getD 0
    let first_tp : ℤ := if 3 < nt then pyTrunc (tl * freq) else 0
    let n_shifts : Option ℤ :=
      if 4 < nt then some (first_tp * ((nt : ℤ) - 2)) else none
    (first_tp, n_shifts, [])
  else if pyTruthyQ trial_len || pyTruthyN n_trials then
    (0, none, [.underspecifiedTrial])
  else (0, none, [])

/-- The bulk shift `compute_bulk_shift` obtains from `x_corr`
(regressors.py:206-209), before the overflow check. -/
def chosen_bulk_shift (xc : XCorrFn) (func_upsampled petco2hrf : List ℚ)
    (freq : ℚ) (trial_len : Option ℚ) (n_trials : Option ℕ)
    (abs_xcorr : Bool) : ℕ :=
  let w := bulk_shift_windowing trial_len n_trials freq
  let func_cut := pySliceFrom func_upsampled w.1
  (xc func_cut petco2hrf w.2.1 w.1 abs_xcorr).1

/-- `compute_bulk_shift` (regressors.py:139-226): trial-aware windowing,
cross correlation, then the fatal check
`optshift + func_upsampled.shape[0] > len(petco2hrf)` raising a bare
`Exception`.  File/plot exports are side effects outside the model; the
emitted warnings are returned alongside the result. -/
def compute_bulk_shift (xc : XCorrFn) (func_upsampled petco2hrf : List ℚ)
    (freq : ℚ) (trial_len : Option ℚ) (n_trials : Option ℕ)
    (abs_xcorr : Bool) : List Warn × Except PyErr ℕ :=
  let w := bulk_shift_windowing trial_len n_trials freq
  let optshift :=
    chosen_bulk_shift xc func_upsampled petco2hrf freq trial_len n_trials
      abs_xcorr
  if (petco2hrf.length : ℤ) < optshift + func_upsampled.length
  then (w.2.2, .error .exception)
  else (w.2.2, .ok optshift)

/-- Core of `create_fine_shift_regressors` (regressors.py:279-298) for a
concrete (non-`None`) `lag_min`: shift counts by `int()` truncation, mean
padding, sliding windows, the reversed slice `[pos_idx:neg_idx:-1]`, and the
row-wise export (downsampling to `func_size` and demeaning).
`sliding_window_view` raises `ValueError` on an empty or too-wide window. -/
def create_fine_shift_core (petco2hrf : List ℚ) (optshift : ℕ)
    (lag_max lag_min freq : ℚ) (func_size func_upsamp_size : ℕ)
    (legacy : Bool) : Except PyErr (List (List ℚ)) :=
  let neg_shifts : ℤ := pyTrunc (|lag_min| * freq)
  let pos_shifts : ℤ :=
    if legacy then pyTrunc (lag_max * freq) else pyTrunc (lag_max * freq) + 1
  let rpad : ℤ :=
    max 0 ((func_upsamp_size : ℤ) + optshift + pos_shifts - petco2hrf.length)
  let lpad : ℤ := max 0 (neg_shifts - optshift)
  let padded := padMean petco2hrf lpad.toNat rpad.toNat
  if func_upsamp_size = 0 ∨ padded.length < func_upsamp_size then
    .error .valueError
  else
    let neg_idx : ℤ := (optshift : ℤ) - pos_shifts + lpad - 1
    let pos_idx : ℤ := (optshift : ℤ) + neg_shifts + lpad - 1
    let wins := slidingWindows padded func_upsamp_size
    let lagged := pySliceNegOne [] wins pos_idx neg_idx
    exportRegressorRows lagged func_size

/-- `create_fine_shift_regressors` as called with an optional `lag_min`
(regressors.py:279): `abs(lag_min)` on `None` raises `TypeError`; no default
is substituted anywhere before this point. -/
def create_fine_shift_regressors (petco2hrf : List ℚ) (optshift : ℕ)
    (lag_max : ℚ) (lag_min : Option ℚ) (freq : ℚ)
    (func_size func_upsamp_size : ℕ) (legacy : Bool) :
    Except PyErr (List (List ℚ)) :=
  match lag_min with
  | none => .error .typeError
  | some lm =>
    create_fine_shift_core petco2hrf optshift lag_max lm freq func_size
      func_upsamp_size legacy

/-- The none-ish test of `compute_petco2hrf` (regressors.py:122):
`response_function not in [None, "none", "None", "NONE"]`. -/
def rfIsNoneIsh : RespFun → Bool
  | .pynone => true
  | .str s => s = "none" ∨ s = "None" ∨ s = "NONE"
  | _ => false

/-- The source default of `compute_petco2hrf`'s `response_function`
parameter: the string `"hfr"` (regressors.py:63). -/
def compute_petco2hrf_default_rf : RespFun := .str "hfr"

/-- Control flow of `compute_petco2hrf` (regressors.py:62-136) up to and
including the choice of convolution kernel, for a 1-D `co2` trace: optional
end-tidal interpolation (whose failures propagate), then either the
convolution is skipped (`none`) or `convolve_signal` resolves the kernel. -/
def compute_petco2hrf_kernel (fileExists : String → Bool)
    (providerAvailable : Bool) (co2 : List ℚ) (pidx : List ℕ)
    (comp_endtidal : Bool) (rf : RespFun) :
    Except PyErr (Option KernelChoice) :=
  match (if comp_endtidal then endtidal_interpolation co2 pidx else .ok co2) with
  | .error e => .error e
  | .ok _ =>
    if rfIsNoneIsh rf then .ok none
    else
      match resolve_response_function fileExists providerAvailable rf with
      | .error e => .error e
      | .ok k => .ok (some k)

/-- Observable outcome of `create_physio_regressor`: artifacts recorded as
far as execution reached, warnings, and the first raised exception. -/
structure PhysioResult where
  warnings : List Warn
  optshift : Option ℕ
  petco2hrf_demean : Option (List ℚ)
  petco2hrf_lagged : Option (List (List ℚ))
  error : Option PyErr
  deriving Repr, DecidableEq

/-- `create_physio_regressor` (regressors.py:301-419): upsample the
functional average to the regressor frequency, compute (or skip) the bulk
shift, slice and export the single regressor, then — policy on the flags —
build the lag bank, or warn `missingLagMax` when `lagged_regression` is
requested with a falsy `lag_max`, or log-and-skip.  `lag_min` is handed to
`create_fine_shift_regressors` untouched (no `-lag_max` default). -/
def create_physio_regressor (xc : XCorrFn) (func_avg petco2hrf : List ℚ)
    (tr freq : ℚ) (lag_max lag_min : Option ℚ) (trial_len : Option ℚ)
    (n_trials : Option ℕ) (lagged_regression legacy abs_xcorr skip_xcorr :
    Bool) : PhysioResult :=
  match resample_signal_freqs func_avg (1 / tr) freq with
  | .error e =>
    { warnings := [], optshift := none, petco2hrf_demean := none,
      petco2hrf_lagged := none, error := some e }
  | .ok func_upsampled =>
    let bulk : List Warn × Except PyErr ℕ :=
      if skip_xcorr then ([], .ok 0)
      else
        compute_bulk_shift xc func_upsampled petco2hrf freq trial_len
          n_trials abs_xcorr
    match bulk with
    | (ws, .error e) =>
      { warnings := ws, optshift := none, petco2hrf_demean := none,
        petco2hrf_lagged := none, error := some e }
    | (ws, .ok optshift) =>
      let petco2hrf_shift := (petco2hrf.drop optshift).take func_upsampled.length
      match export_regressor petco2hrf_shift func_avg.length with
      | .error e =>
        { warnings := ws, optshift := some optshift, petco2hrf_demean := none,
          petco2hrf_lagged := none, error := some e }
      | .ok dm =>
        if lagged_regression && pyTruthyQ lag_max then
          match
            create_fine_shift_regressors petco2hrf optshift (lag_max.getD 0)
              lag_min freq func_avg.length func_upsampled.length legacy with
          | .error e =>
            { warnings := ws, optshift := some optshift,
              petco2hrf_demean := some dm, petco2hrf_lagged := none,
              error := some e }
          | .ok bank =>
            { warnings := ws, optshift := some optshift,
              petco2hrf_demean := some dm, petco2hrf_lagged := some bank,
              error := none }
        else if lagged_regression then
          { warnings := ws ++ [.missingLagMax], optshift := some optshift,
            petco2hrf_demean := some dm, petco2hrf_lagged := none,
            error := none }
        else
          { warnings := ws, optshift := some optshift,
            petco2hrf_demean := some dm, petco2hrf_lagged := none,
            error := none }

/-! ### Helper lemmas -/

theorem linspace_length (a b : ℚ) (n : ℕ) : (linspace a b n).length = n := by
  match n with
  | 0 => simp [linspace]
  | 1 => simp [linspace]
  | m + 2 => simp only [linspace, List.length_map, List.length_range]

theorem demean_length (l : List ℚ) : (demean l).length = l.length := by
  simp [demean]

theorem padMean_length (l : List ℚ) (lp rp : ℕ) :
    (padMean l lp rp).length = lp + l.length + rp := by
  simp [padMean]; omega

theorem le_pyMax (l : List ℚ) (x : ℚ) (hx : x ∈ l) : x ≤ pyMax l := by
  induction l with
  | nil => simp at hx
  | cons a t ih =>
    match t with
    | [] => simp at hx; simp [hx, pyMax]
    | b :: u =>
      rcases List.mem_cons.mp hx with h | h
      · simp [pyMax, h]
      · exact le_trans (ih h) (le_max_right _ _)

theorem pyMax_mem (l : List ℚ) (hl : l ≠ []) : pyMax l ∈ l := by
  induction l with
  | nil => exact absurd rfl hl
  | cons a t ih =>
    match t with
    | [] => simp [pyMax]
    | b :: u =>
      rcases max_choice a (pyMax (b :: u)) with h | h
      · simp [pyMax, h]
      · have := ih (by simp)
        simp only [pyMax, h]
        exact List.mem_cons_of_mem _ this

theorem pyMin_mem (l : List ℚ) (hl : l ≠ []) : pyMin l ∈ l := by
  induction l with
  | nil => exact absurd rfl hl
  | cons a t ih =>
    match t with
    | [] => simp [pyMin]
    | b :: u =>
      rcases min_choice a (pyMin (b :: u)) with h | h
      · simp [pyMin, h]
      · have := ih (by simp)
        simp only [pyMin, h]
        exact List.mem_cons_of_mem _ this

theorem pyMax_map_div (l : List ℚ) (c : ℚ) (hc : 0 < c) :
    pyMax (l.map (fun x => x / c)) = pyMax l / c := by
  induction l with
  | nil => simp [pyMax]
  | cons a t ih =>
    match t with
    | [] => simp [pyMax]
    | b :: u =>
      simp only [List.map_cons] at ih ⊢
      rw [show pyMax (a / c :: b / c :: List.map (fun x => x / c) u)
            = max (a / c) (pyMax (b / c :: List.map (fun x => x / c) u)) from rfl,
          show pyMax (a :: b :: u) = max a (pyMax (b :: u)) from rfl, ih,
          max_div_div_right hc.le]

theorem two_le_length_of_mem_ne {α : Type} {l : List α} {a b : α}
    (ha : a ∈ l) (hb : b ∈ l) (hab : a ≠ b) : 2 ≤ l.length := by
  induction l with
  | nil => simp at ha
  | cons c t ih =>
    rcases List.mem_cons.mp ha with rfl | hat
    · rcases List.mem_cons.mp hb with rfl | hbt
      · exact absurd rfl hab
      · have := List.length_pos.mpr (List.ne_nil_of_mem hbt)
        simp only [List.length_cons]; omega
    · have := List.length_pos.mpr (List.ne_nil_of_mem hat)
      simp only [List.length_cons]; omega

theorem interpEval_at_knot (ps : List (ℚ × ℚ))
    (hs : ps.Pairwise (fun u v => u.1 < v.1)) (x y : ℚ)
    (hm : (x, y) ∈ ps) : interpEval ps x = y := by
  induction ps with
  | nil => simp at hm
  | cons hd tl ih =>
    obtain ⟨x0, y0⟩ := hd
    match tl with
    | [] =>
      rcases List.mem_singleton.mp hm with h
      simp [interpEval, (Prod.mk.injEq _ _ _ _ ▸ h).2]
    | (x1, y1) :: rest =>
      have h01 : x0 < x1 :=
        (List.pairwise_cons.mp hs).1 (x1, y1) (List.mem_cons_self _ _)
      have hne : x1 - x0 ≠ 0 := sub_ne_zero.mpr (ne_of_gt h01)
      rcases List.mem_cons.mp hm with h | hm1
      · have hx : x = x0 ∧ y = y0 := by
          constructor <;> [exact congrArg Prod.fst h; exact congrArg Prod.snd h]
        rw [hx.1, hx.2, interpEval, if_pos (Or.inl h01.le)]
        simp
      · rcases List.mem_cons.mp hm1 with h | hm2
        · have hx : x = x1 ∧ y = y1 := by
            constructor <;> [exact congrArg Prod.fst h; exact congrArg Prod.snd h]
          rw [hx.1, hx.2, interpEval, if_pos (Or.inl le_rfl)]
          field_simp
        · have hx1x : x1 < x := by
            have := (List.pairwise_cons.mp (List.pairwise_cons.mp hs).2).1
            exact this _ hm2
          have hrest : rest ≠ [] := List.ne_nil_of_mem hm2
          rw [interpEval, if_neg (by push_neg; exact ⟨hx1x, hrest⟩)]
          exact ih (List.pairwise_cons.mp hs).2 hm1

theorem npUniqueSort_mem (l : List ℕ) (a : ℕ) :
    a ∈ npUniqueSort l ↔ a ∈ l := by
  simp [npUniqueSort, List.mem_dedup, List.mem_mergeSort]

theorem npUniqueSort_pairwise (l : List ℕ) :
    (npUniqueSort l).Pairwise (· < ·) := by
  have hsorted : (l.mergeSort (fun a b => a ≤ b)).Pairwise (fun a b => a ≤ b) := by
    have := @List.sorted_mergeSort ℕ (fun a b => decide (a ≤ b))
      (fun a b c hab hbc => by
        simp only [decide_eq_true_eq] at *; omega)
      (fun a b => by simpa using Nat.le_total a b) l
    exact this.imp (fun h => by simpa using h)
  have hd : (npUniqueSort l).Pairwise (fun a b => a ≤ b) :=
    List.Pairwise.sublist (List.dedup_sublist _) hsorted
  have hn : (npUniqueSort l).Pairwise (fun a b => a ≠ b) :=
    List.nodup_dedup _
  exact (hd.and hn).imp (fun h => lt_of_le_of_ne h.1 h.2)

theorem slidingWindows_length {α : Type} (l : List α) (w : ℕ) :
    (slidingWindows l w).length = l.length + 1 - w := by
  simp [slidingWindows]

theorem slidingWindows_row_length {α : Type} (l : List α) (w : ℕ)
    (hw : w ≤ l.length) (r : List α) (hr : r ∈ slidingWindows l w) :
    r.length = w := by
  simp only [slidingWindows, List.mem_map, List.mem_range] at hr
  obtain ⟨i, hi, rfl⟩ := hr
  rw [List.length_take, List.length_drop]
  omega

theorem pySliceNegOne_length {α : Type} (d : α) (l : List α) (a b : ℤ)
    (hb : 0 ≤ b) (hba : b ≤ a) (ha : a ≤ (l.length : ℤ) - 1) :
    (pySliceNegOne d l a b).length = (a - b).toNat := by
  have hsa : ¬a < 0 := by omega
  have hsb : ¬b < 0 := by omega
  simp only [pySliceNegOne, hsa, hsb, if_false, List.length_map,
    List.length_range]
  rw [min_eq_left ha, min_eq_left (by omega)]

theorem pySliceNegOne_mem {α : Type} (d : α) (l : List α) (a b : ℤ)
    (hb : 0 ≤ b) (hba : b ≤ a) (ha : a ≤ (l.length : ℤ) - 1)
    (x : α) (hx : x ∈ pySliceNegOne d l a b) : x ∈ l := by
  have hsa : ¬a < 0 := by omega
  have hsb : ¬b < 0 := by omega
  simp only [pySliceNegOne, hsa, hsb, if_false, List.mem_map,
    List.mem_range] at hx
  rw [min_eq_left ha, min_eq_left (by omega)] at hx
  obtain ⟨k, hk, rfl⟩ := hx
  have hklt : (k : ℤ) < a - b := by
    have := Int.toNat_of_nonneg (show (0 : ℤ) ≤ a - b by omega)
    omega
  have hidx : (a - (k : ℤ)).toNat < l.length := by omega
  rw [List.getD_eq_getElem _ _ hidx]
  exact List.getElem_mem _

theorem resample_signal_samples_ok (ts : List ℚ) (samples : ℕ)
    (h : 2 ≤ ts.length) :
    ∃ r, resample_signal_samples ts samples = .ok r ∧ r.length = samples := by
  rw [resample_signal_samples, if_neg (by omega)]
  exact ⟨_, rfl, by rw [List.length_map, linspace_length]⟩

theorem export_regressor_ok (row : List ℚ) (ntp : ℕ) (h : 2 ≤ row.length) :
    ∃ e, export_regressor row ntp = .ok e ∧ e.length = ntp := by
  rw [export_regressor]
  by_cases hr : row.length = ntp
  · rw [if_pos hr]
    exact ⟨_, rfl, by rw [demean_length, hr]⟩
  · rw [if_neg hr]
    obtain ⟨r, hr1, hr2⟩ := resample_signal_samples_ok row ntp h
    rw [hr1]
    exact ⟨_, rfl, by rw [demean_length, hr2]⟩

theorem exportRegressorRows_ok (rows : List (List ℚ)) (ntp : ℕ)
    (h : ∀ r ∈ rows, 2 ≤ r.length) :
    ∃ bank, exportRegressorRows rows ntp = .ok bank ∧
      bank.length = rows.length ∧ ∀ q ∈ bank, q.length = ntp := by
  induction rows with
  | nil => exact ⟨[], rfl, rfl, by simp⟩
  | cons r rest ih =>
    obtain ⟨e, he1, he2⟩ :=
      export_regressor_ok r ntp (h r (List.mem_cons_self _ _))
    obtain ⟨bank, hb1, hb2, hb3⟩ :=
      ih (fun q hq => h q (List.mem_cons_of_mem _ hq))
    refine ⟨e :: bank, ?_, by simp [hb2], ?_⟩
    · rw [exportRegressorRows, he1, hb1]
    · intro q hq
      rcases List.mem_cons.mp hq with rfl | hq2
      · exact he2
      · exact hb3 q hq2

theorem endtidal_interpolation_ok (sig : List ℚ) (pidx : List ℕ)
    (hvalid : ∀ p ∈ pidx, p < sig.length)
    (p q : ℕ) (hp : p ∈ pidx) (hq : q ∈ pidx) (hpq : p ≠ q) :
    ∃ out, endtidal_interpolation sig pidx = .ok out ∧
      out.length = sig.length ∧
      ∀ j ∈ pidx, out.getD j 0 = sig.getD j 0 := by
  have hpeaks : ∀ r ∈ npUniqueSort pidx, r < sig.length :=
    fun r hr => hvalid r ((npUniqueSort_mem pidx r).mp hr)
  have hany : (npUniqueSort pidx).any (fun r => sig.length ≤ r) = false := by
    rw [List.any_eq_false]
    intro r hr
    simpa using Nat.not_le.mpr (hpeaks r hr)
  have htwo : 2 ≤ (npUniqueSort pidx).length :=
    two_le_length_of_mem_ne ((npUniqueSort_mem pidx p).mpr hp)
      ((npUniqueSort_mem pidx q).mpr hq) hpq
  rw [endtidal_interpolation, hany]
  simp only [Bool.false_eq_true, if_false, if_neg (by omega : ¬(npUniqueSort pidx).length < 2)]
  refine ⟨_, rfl, by simp, ?_⟩
  intro j hj
  have hjlen : j < sig.length := hvalid j hj
  have hjpk : j ∈ npUniqueSort pidx := (npUniqueSort_mem pidx j).mpr hj
  have hknot : ((j : ℚ), sig.getD j 0) ∈
      (npUniqueSort pidx).map (fun r => ((Nat.cast r : ℚ), sig.getD r 0)) :=
    List.mem_map.mpr ⟨j, hjpk, rfl⟩
  have hpw : ((npUniqueSort pidx).map
      (fun r => ((Nat.cast r : ℚ), sig.getD r 0))).Pairwise
        (fun u v => u.1 < v.1) := by
    rw [List.pairwise_map]
    exact (npUniqueSort_pairwise pidx).imp
      (fun h => by dsimp only; exact_mod_cast h)
  have := interpEval_at_knot _ hpw (j : ℚ) (sig.getD j 0) hknot
  rw [List.getD_eq_getElem _ _ (by simpa using hjlen)]
  simpa using this

/-! ### Claim theorems -/

/-- C2, counterexample: on the one-sample timeseries `[5]` (with unit
frequencies) `resample_signal_freqs` raises `ValueError` inside `interp1d`
instead of returning the claimed `floor((1-1)/1*1) + 1 = 1` samples. -/
theorem resample_signal_freqs_len_one_counterexample :
    (resample_signal_freqs [(5 : ℚ)] 1 1).toOption.map List.length ≠
      some (⌊((1 : ℚ) - 1) / 1 * 1⌋ + 1).toNat := by
  have h : resample_signal_freqs [(5 : ℚ)] 1 1 = .error .valueError := by
    rw [resample_signal_freqs]
    norm_num [pyTrunc]
  rw [h]
  simp [Except.toOption]

/-- C2 (amended): for every 1-D timeseries with at least two samples and
positive frequencies, `resample_signal_freqs` returns a timeseries with
exactly `floor((L-1)/freq1 * freq2) + 1` samples. -/
theorem resample_signal_freqs_length (ts : List ℚ) (freq1 freq2 : ℚ)
    (hlen : 2 ≤ ts.length) (h1 : 0 < freq1) (h2 : 0 < freq2) :
    ∃ out, resample_signal_freqs ts freq1 freq2 = .ok out ∧
      out.length = (⌊((ts.length : ℚ) - 1) / freq1 * freq2⌋ + 1).toNat := by
  have hprod : 0 ≤ ((ts.length : ℚ) - 1) / freq1 * freq2 := by
    have hnum : (0 : ℚ) ≤ (ts.length : ℚ) - 1 := by
      have : (2 : ℚ) ≤ (ts.length : ℚ) := by exact_mod_cast hlen
      linarith
    positivity
  have htr : pyTrunc (((ts.length : ℚ) - 1) / freq1 * freq2) =
      ⌊((ts.length : ℚ) - 1) / freq1 * freq2⌋ := by
    rw [pyTrunc, if_pos hprod]
  have hfl : 0 ≤ ⌊((ts.length : ℚ) - 1) / freq1 * freq2⌋ :=
    Int.floor_nonneg.mpr hprod
  rw [resample_signal_freqs, if_neg (ne_of_gt h1)]
  simp only [htr]
  rw [if_neg (by omega), if_neg (by omega)]
  exact ⟨_, rfl, by rw [List.length_map, linspace_length]⟩

/-- C2 witness: a concrete instantiation of the amended claim. -/
theorem resample_signal_freqs_length_witness :
    ∃ out, resample_signal_freqs [(0 : ℚ), 1, 2] 1 2 = .ok out ∧
      out.length = (⌊(((3 : ℕ) : ℚ) - 1) / 1 * 2⌋ + 1).toNat :=
  resample_signal_freqs_length [(0 : ℚ), 1, 2] 1 2 (by norm_num)
    (by norm_num) (by norm_num)

/-- C3: `compute_bulk_shift` raises its (single, catchable) fatal error
exactly when the chosen shift plus the upsampled functional length exceeds
the regressor length, and otherwise returns exactly the chosen shift (no
partial output accompanies the error, by the `Except` result type). -/
theorem compute_bulk_shift_overflow_iff (xc : XCorrFn)
    (func_upsampled petco2hrf : List ℚ) (freq : ℚ) (trial_len : Option ℚ)
    (n_trials : Option ℕ) (abs_xcorr : Bool) :
    ((compute_bulk_shift xc func_upsampled petco2hrf freq trial_len n_trials
        abs_xcorr).2 = .error .exception ↔
      (petco2hrf.length : ℤ) <
        chosen_bulk_shift xc func_upsampled petco2hrf freq trial_len n_trials
          abs_xcorr + func_upsampled.length) ∧
    (¬((petco2hrf.length : ℤ) <
        chosen_bulk_shift xc func_upsampled petco2hrf freq trial_len n_trials
          abs_xcorr + func_upsampled.length) →
      (compute_bulk_shift xc func_upsampled petco2hrf freq trial_len n_trials
        abs_xcorr).2 =
        .ok (chosen_bulk_shift xc func_upsampled petco2hrf freq trial_len
          n_trials abs_xcorr)) := by
  rw [compute_bulk_shift]
  by_cases h : (petco2hrf.length : ℤ) <
      chosen_bulk_shift xc func_upsampled petco2hrf freq trial_len n_trials
        abs_xcorr + func_upsampled.length
  · rw [if_pos h]
    exact ⟨⟨fun _ => h, fun _ => rfl⟩, fun hc => absurd h hc⟩
  · rw [if_neg h]
    exact ⟨⟨fun hc => by simp at hc, fun hc => absurd hc h⟩, fun _ => rfl⟩

/-- C3 witness: with a cross-correlation stub choosing shift 7, a regressor
of length 3 and an upsampled functional signal of length 2 trip the fatal
check. -/
theorem compute_bulk_shift_overflow_witness :
    (compute_bulk_shift (fun _ _ _ _ _ => (7, [])) [(0 : ℚ), 1] [0, 1, 2] 1
      none none false).2 = .error .exception :=
  (compute_bulk_shift_overflow_iff (fun _ _ _ _ _ => (7, [])) [(0 : ℚ), 1]
    [0, 1, 2] 1 none none false).1.mpr (by decide)

/-- C4: trial-aware windowing policy of `compute_bulk_shift`: with both
trial parameters supplied (truthy), the first trial (`int(trial_len*freq)`
samples) is excluded exactly when `n_trials > 3` and the search range is
restricted to `first_tp*(n_trials-2)` shifts exactly when `n_trials > 4`,
with no warning; with exactly one supplied, a warning is emitted and the
whole signal is used; with neither, the whole signal is used silently. -/
theorem bulk_shift_windowing_policy (tl : ℚ) (nt : ℕ) (freq : ℚ)
    (htl : tl ≠ 0) (hnt : nt ≠ 0) :
    bulk_shift_windowing (some tl) (some nt) freq =
      (if 3 < nt then pyTrunc (tl * freq) else 0,
       if 4 < nt then
         some ((if 3 < nt then pyTrunc (tl * freq) else 0) * ((nt : ℤ) - 2))
       else none, []) ∧
    bulk_shift_windowing (some tl) none freq =
      (0, none, [.underspecifiedTrial]) ∧
    bulk_shift_windowing none (some nt) freq =
      (0, none, [.underspecifiedTrial]) ∧
    bulk_shift_windowing none none freq = (0, none, []) := by
  refine ⟨?_, ?_, ?_, ?_⟩ <;>
    simp [bulk_shift_windowing, pyTruthyQ, pyTruthyN, htl, hnt]

/-- C4 witness: five 2-second trials at 10 Hz drop the first 20 samples and
search `20*3 = 60` shifts; singly-supplied parameters warn and use all. -/
theorem bulk_shift_windowing_policy_witness :
    bulk_shift_windowing (some 2) (some 5) 10 = (20, some 60, []) ∧
    bulk_shift_windowing (some (2 : ℚ)) none 10 =
      (0, none, [.underspecifiedTrial]) ∧
    bulk_shift_windowing none (some 5) 10 =
      (0, none, [.underspecifiedTrial]) ∧
    bulk_shift_windowing none none 10 = (0, none, []) := by
  have h := bulk_shift_windowing_policy 2 5 10 (by norm_num) (by norm_num)
  refine ⟨?_, h.2.1, h.2.2.1, h.2.2.2⟩
  rw [h.1]
  norm_num [pyTrunc]

/-- C5: for any signal and any collection of peak indices containing two
distinct in-range indices (unsorted, duplicated allowed),
`endtidal_interpolation` succeeds, preserves the signal length, and
reproduces the signal exactly at every peak index. -/
theorem endtidal_interpolation_exact_at_peaks (sig : List ℚ) (pidx : List ℕ)
    (hvalid : ∀ p ∈ pidx, p < sig.length)
    (htwo : ∃ p ∈ pidx, ∃ q ∈ pidx, p ≠ q) :
    ∃ out, endtidal_interpolation sig pidx = .ok out ∧
      out.length = sig.length ∧
      ∀ j ∈ pidx, out.getD j 0 = sig.getD j 0 := by
  obtain ⟨p, hp, q, hq, hpq⟩ := htwo
  exact endtidal_interpolation_ok sig pidx hvalid p q hp hq hpq

/-- C5 witness: peaks `[2, 0, 2]` (unsorted, duplicated) of the signal
`[3, 7, 5, 9]`. -/
theorem endtidal_interpolation_exact_witness :
    ∃ out, endtidal_interpolation [(3 : ℚ), 7, 5, 9] [2, 0, 2] = .ok out ∧
      out.length = ([(3 : ℚ), 7, 5, 9] : List ℚ).length ∧
      ∀ j ∈ [2, 0, 2], out.getD j 0 = [(3 : ℚ), 7, 5, 9].getD j 0 :=
  endtidal_interpolation_exact_at_peaks [(3 : ℚ), 7, 5, 9] [2, 0, 2]
    (by decide) ⟨2, by decide, 0, by decide, by decide⟩

/-- C6: the code contradicts its own docstring: `compute_petco2hrf` rejects
the 2-D (post-squeeze) shape `(2, 3)`, but `convolve_signal` — documented to
raise `NotImplementedError` for signals of more than one dimension — accepts
it, because its gate tests `ndim > 2` instead of `ndim > 1`. -/
theorem convolve_signal_shape_gate_bug :
    compute_petco2hrf_rejects_shape [2, 3] = true ∧
    convolve_signal_rejects_shape [2, 3] = false ∧
    1 < (([2, 3] : List ℕ).filter (fun d => d ≠ 1)).length := by
  decide

/-- C10: with 1-D input, a usable peak set, and no file named "hfr" in the
working directory, `compute_petco2hrf` called with its source-default
response function (the misspelled string "hfr") raises
`NotImplementedError` from kernel resolution instead of convolving with the
canonical HRF. -/
theorem compute_petco2hrf_default_kernel_unsupported
    (fileExists : String → Bool) (providerAvailable : Bool)
    (co2 : List ℚ) (pidx : List ℕ) (hnf : fileExists "hfr" = false)
    (hvalid : ∀ p ∈ pidx, p < co2.length)
    (htwo : ∃ p ∈ pidx, ∃ q ∈ pidx, p ≠ q) :
    compute_petco2hrf_kernel fileExists providerAvailable co2 pidx true
      compute_petco2hrf_default_rf = .error .notImplementedError := by
  obtain ⟨p, hp, q, hq, hpq⟩ := htwo
  obtain ⟨out, hout, -, -⟩ :=
    endtidal_interpolation_ok co2 pidx hvalid p q hp hq hpq
  have hres : resolve_response_function fileExists providerAvailable
      (.str "hfr") = .error .notImplementedError := by
    rw [resolve_response_function]
    simp only [hnf, Bool.false_eq_true, if_false]
    rfl
  rw [compute_petco2hrf_kernel]
  simp only [compute_petco2hrf_default_rf, if_true, hout, hres]
  rfl

/-- C10 witness: an empty filesystem, provider available, signal `[1, 2, 3]`
with peaks `[0, 2]`. -/
theorem compute_petco2hrf_default_kernel_witness :
    compute_petco2hrf_kernel (fun _ => false) true [(1 : ℚ), 2, 3] [0, 2]
      true compute_petco2hrf_default_rf = .error .notImplementedError :=
  compute_petco2hrf_default_kernel_unsupported (fun _ => false) true
    [(1 : ℚ), 2, 3] [0, 2] rfl (by decide) ⟨0, by decide, 2, by decide, by decide⟩

/-- C9: for every frequency and any gamma-pdf sampler whose sampled mixture
contains at least one value above the 10-epsilon threshold (true of the
actual scipy double-gamma mixture at any usable frequency), `create_hrf`
returns a kernel of the fixed length `int(32*freq + 1)` depending on the
frequency alone, whose maximum is exactly 1 and which contains no sample
exactly equal to zero. -/
theorem create_hrf_normalized (gp : ℚ → ℚ → ℚ) (freq : ℚ)
    (hx : ∃ x ∈ hrfSampled gp freq, 10 * npEps < x) :
    ∃ out, create_hrf gp freq = .ok out ∧
      out.length = (pyTrunc (32 * freq + 1)).toNat ∧
      pyMax out = 1 ∧ ∀ y ∈ out, y ≠ 0 := by
  obtain ⟨x, hxmem, hxgt⟩ := hx
  have hxfil : x ∈ (hrfSampled gp freq).filter (fun z => 10 * npEps < z) :=
    List.mem_filter.mpr ⟨hxmem, by simpa using hxgt⟩
  rw [create_hrf]
  cases hpos : (hrfSampled gp freq).filter (fun z => 10 * npEps < z) with
  | nil => rw [hpos] at hxfil; simp at hxfil
  | cons p ps =>
    have heps : (0 : ℚ) < 10 * npEps := by norm_num [npEps]
    have hposgt : ∀ z ∈ p :: ps, 10 * npEps < z := by
      intro z hz
      rw [← hpos] at hz
      simpa using List.of_mem_filter hz
    have hmin : 10 * npEps < pyMin (p :: ps) :=
      hposgt _ (pyMin_mem _ (by simp))
    have hminhrf : 0 <
        (if (1 / 10 ^ 9 : ℚ) * pyMin (p :: ps) < 10 * npEps then 10 * npEps
         else (1 / 10 ^ 9 : ℚ) * pyMin (p :: ps)) := by
      split
      · exact heps
      · exact mul_pos (by norm_num) (lt_trans heps hmin)
    set min_hrf : ℚ :=
      if (1 / 10 ^ 9 : ℚ) * pyMin (p :: ps) < 10 * npEps then 10 * npEps
      else (1 / 10 ^ 9 : ℚ) * pyMin (p :: ps) with hmindef
    have hz2 : ∀ y ∈ (hrfSampled gp freq).map
        (fun z => if z = 0 then min_hrf else z), y ≠ 0 := by
      intro y hy
      obtain ⟨z, _, rfl⟩ := List.mem_map.mp hy
      split
      · exact ne_of_gt hminhrf
      · assumption
    have hxin2 : x ∈ (hrfSampled gp freq).map
        (fun z => if z = 0 then min_hrf else z) :=
      List.mem_map.mpr ⟨x, hxmem,
        by rw [if_neg (ne_of_gt (lt_trans heps hxgt))]⟩
    have hM : 0 < pyMax ((hrfSampled gp freq).map
        (fun z => if z = 0 then min_hrf else z)) :=
      lt_of_lt_of_le (lt_trans heps hxgt) (le_pyMax _ _ hxin2)
    refine ⟨_, rfl, ?_, ?_, ?_⟩
    · rw [List.length_map, List.length_map]
      simp [hrfSampled]
    · rw [pyMax_map_div _ _ hM, div_self (ne_of_gt hM)]
    · intro y hy
      obtain ⟨z, hzmem, rfl⟩ := List.mem_map.mp hy
      exact div_ne_zero (hz2 z hzmem) (ne_of_gt hM)

/-- C9 witness: a stub sampler returning 32 on shape 6 and 0 on shape 16,
at frequency 1/512, gives the one-sample kernel `[1]`. -/
theorem create_hrf_normalized_witness :
    ∃ out, create_hrf (fun _ a => if a = 6 then 32 else 0) (1 / 512) =
        .ok out ∧
      out.length = (pyTrunc (32 * (1 / 512) + 1)).toNat ∧
      pyMax out = 1 ∧ ∀ y ∈ out, y ≠ 0 := by
  have hsam : hrfSampled (fun _ a => if a = 6 then 32 else 0) (1 / 512) =
      [1] := by
    have hlen : pyTrunc (32 * (1 / 512 : ℚ) + 1) = 1 := by
      norm_num [pyTrunc]
    rw [hrfSampled, hlen]
    norm_num [hrfOversampled, npArangeLen, List.range_succ]
  exact create_hrf_normalized _ _
    ⟨1, by rw [hsam]; exact List.mem_singleton.mpr rfl, by norm_num [npEps]⟩

theorem fine_shift_bank_spec (pet : List ℚ) (opt : ℕ) (lag_max freq : ℚ)
    (fs fus : ℕ) (legacy : Bool) (hfus : 2 ≤ fus)
    (hlag : 0 ≤ lag_max) (hfreq : 0 < freq)
    (hopt : (if legacy then pyTrunc (lag_max * freq)
             else pyTrunc (lag_max * freq) + 1) < (opt : ℤ)) :
    ∃ bank, create_fine_shift_core pet opt lag_max (-lag_max) freq fs fus
        legacy = .ok bank ∧
      bank.length =
        (2 * pyTrunc (lag_max * freq) + if legacy then 0 else 1).toNat ∧
      ∀ r ∈ bank, r.length = fs := by
  have hmn : 0 ≤ lag_max * freq := mul_nonneg hlag hfreq.le
  set t : ℤ := pyTrunc (lag_max * freq) with htdef
  have ht0 : 0 ≤ t := by
    rw [htdef, pyTrunc, if_pos hmn]
    exact Int.floor_nonneg.mpr hmn
  have habs : pyTrunc (|(-lag_max)| * freq) = t := by
    rw [htdef, abs_neg, abs_of_nonneg hlag]
  simp only [create_fine_shift_core, habs, ← htdef]
  generalize hposS : (if legacy = true then t else t + 1) = posS
  have htle : t ≤ posS ∧ posS ≤ t + 1 := by rw [← hposS]; split <;> omega
  have hopt2 : posS < (opt : ℤ) := hposS ▸ hopt
  have hlpad : max 0 (t - (opt : ℤ)) = 0 := max_eq_left (by omega)
  rw [hlpad]
  simp only [Int.toNat_zero]
  set e : ℤ := (fus : ℤ) + (opt : ℤ) + posS - (pet.length : ℤ) with hedef
  set R : ℕ := (max 0 e).toNat with hRdef
  have hRz : (R : ℤ) = max 0 e :=
    Int.toNat_of_nonneg (le_max_left 0 e)
  have hRe : e ≤ (R : ℤ) := by rw [hRz]; exact le_max_right 0 e
  have hplen : (padMean pet 0 R).length = pet.length + R := by
    rw [padMean_length]; omega
  have hfge : fus ≤ pet.length + R := by omega
  rw [if_neg (by push_neg; exact ⟨by omega, by rw [hplen]; omega⟩)]
  have hwlenZ : ((slidingWindows (padMean pet 0 R) fus).length : ℤ) =
      (pet.length : ℤ) + R + 1 - fus := by
    rw [slidingWindows_length, hplen]
    omega
  have hb : (0 : ℤ) ≤ (opt : ℤ) - posS + 0 - 1 := by omega
  have hba : (opt : ℤ) - posS + 0 - 1 ≤ (opt : ℤ) + t + 0 - 1 := by omega
  have ha : (opt : ℤ) + t + 0 - 1 ≤
      ((slidingWindows (padMean pet 0 R) fus).length : ℤ) - 1 := by
    rw [hwlenZ]; omega
  have hslen := pySliceNegOne_length ([] : List ℚ)
    (slidingWindows (padMean pet 0 R) fus)
    ((opt : ℤ) + t + 0 - 1) ((opt : ℤ) - posS + 0 - 1) hb hba ha
  have hsmem := pySliceNegOne_mem ([] : List ℚ)
    (slidingWindows (padMean pet 0 R) fus)
    ((opt : ℤ) + t + 0 - 1) ((opt : ℤ) - posS + 0 - 1) hb hba ha
  have hrows : ∀ r ∈ pySliceNegOne ([] : List ℚ)
      (slidingWindows (padMean pet 0 R) fus)
      ((opt : ℤ) + t + 0 - 1) ((opt : ℤ) - posS + 0 - 1), 2 ≤ r.length := by
    intro r hr
    rw [slidingWindows_row_length (padMean pet 0 R) fus
      (by rw [hplen]; omega) r (hsmem r hr)]
    exact hfus
  obtain ⟨bank, hb1, hb2, hb3⟩ := exportRegressorRows_ok _ fs hrows
  refine ⟨bank, hb1, ?_, hb3⟩
  rw [hb2, hslen]
  have harith : (opt : ℤ) + t + 0 - 1 - ((opt : ℤ) - posS + 0 - 1) =
      2 * t + (if legacy = true then 0 else 1) := by
    rw [← hposS]; split <;> omega
  rw [harith]

/-- C1, counterexample: at `lag_max = 1.5 s`, `freq = 1 Hz`, `legacy = true`,
bulk shift 2, a six-sample regressor and a three-sample functional window,
the bank has `2*int(1.5) = 2` rows, not the claimed `2*round(1.5) = 4`:
the code truncates the shift counts with `int()`, it does not round. -/
theorem create_fine_shift_rows_counterexample :
    ∃ bank, create_fine_shift_core [(1 : ℚ), 2, 3, 4, 5, 6] 2 (3 / 2)
        (-(3 / 2)) 1 3 3 true = .ok bank ∧
      bank.length = 2 ∧
      bank.length ≠ (2 * pyRound ((3 / 2 : ℚ) * 1)).toNat := by
  obtain ⟨bank, h1, h2, -⟩ :=
    fine_shift_bank_spec [(1 : ℚ), 2, 3, 4, 5, 6] 2 (3 / 2) 1 3 3 true
      (by norm_num) (by norm_num) (by norm_num) (by norm_num [pyTrunc])
  have hlen : bank.length = 2 := by
    rw [h2]
    norm_num [pyTrunc]
    decide
  refine ⟨bank, h1, hlen, ?_⟩
  rw [hlen]
  norm_num [pyRound]
  decide

/-- C1 (amended): for symmetric lag bounds `lag_min = -lag_max ≤ 0`, positive
frequency, an upsampled functional window of at least two samples, and a bulk
shift strictly larger than `pos_shifts` (so that the reversed slice does not
wrap around through Python's negative-index convention), the lag bank has
exactly `2*int(lag_max*freq)` rows in legacy mode and `2*int(lag_max*freq)+1`
otherwise — `int()` truncation, not `round()` — and every row, after
downsampling, has length equal to the functional signal's native sample
count. -/
theorem create_fine_shift_bank_rows (pet : List ℚ) (opt : ℕ)
    (lag_max lag_min freq : ℚ) (fs fus : ℕ) (legacy : Bool)
    (hsym : lag_min = -lag_max) (hlag : 0 ≤ lag_max) (hfreq : 0 < freq)
    (hfus : 2 ≤ fus)
    (hopt : (if legacy then pyTrunc (lag_max * freq)
             else pyTrunc (lag_max * freq) + 1) < (opt : ℤ)) :
    ∃ bank, create_fine_shift_core pet opt lag_max lag_min freq fs fus legacy
        = .ok bank ∧
      bank.length =
        (2 * pyTrunc (lag_max * freq) + if legacy then 0 else 1).toNat ∧
      ∀ r ∈ bank, r.length = fs := by
  subst hsym
  exact fine_shift_bank_spec pet opt lag_max freq fs fus legacy hfus hlag
    hfreq hopt

/-- C1 witness: the amended claim at the counterexample's input. -/
theorem create_fine_shift_bank_rows_witness :
    ∃ bank, create_fine_shift_core [(1 : ℚ), 2, 3, 4, 5, 6] 2 (3 / 2)
        (-(3 / 2)) 1 3 3 true = .ok bank ∧
      bank.length =
        (2 * pyTrunc ((3 / 2 : ℚ) * 1) + if (true : Bool) then 0 else 1).toNat ∧
      ∀ r ∈ bank, r.length = 3 :=
  create_fine_shift_bank_rows [(1 : ℚ), 2, 3, 4, 5, 6] 2 (3 / 2) (-(3 / 2)) 1
    3 3 true rfl (by norm_num) (by norm_num) (by norm_num)
    (by norm_num [pyTrunc])

theorem resample_signal_samples_error (ts : List ℚ) (n : ℕ) (e : PyErr)
    (h : resample_signal_samples ts n = .error e) : e = .valueError := by
  rw [resample_signal_samples] at h
  split at h
  · injection h with h1; exact h1.symm
  · simp at h

theorem export_regressor_error (row : List ℚ) (ntp : ℕ) (e : PyErr)
    (h : export_regressor row ntp = .error e) : e = .valueError := by
  rw [export_regressor] at h
  split at h
  · simp at h
  · split at h
    · simp at h
    · rename_i e2 he2
      injection h with h1
      exact h1 ▸ resample_signal_samples_error row ntp e2 he2

theorem compute_bulk_shift_error (xc : XCorrFn) (fu pet : List ℚ) (freq : ℚ)
    (tl : Option ℚ) (nt : Option ℕ) (ax : Bool) (ws : List Warn) (e : PyErr)
    (h : compute_bulk_shift xc fu pet freq tl nt ax = (ws, .error e)) :
    e = .exception := by
  rw [compute_bulk_shift] at h
  split at h
  · injection h with h1 h2
    injection h2 with h3
    exact h3.symm
  · injection h with h1 h2
    simp at h2

/-- C7: the docstring of `create_physio_regressor` promises that `lag_min`
defaults to `-lag_max`, but no default is ever substituted: the `None` goes
straight into `create_fine_shift_regressors`, whose `abs(lag_min)` raises
`TypeError`, so requesting lagged regression with only `lag_max` supplied
crashes instead of building the symmetric lag bank. -/
theorem create_physio_lag_min_none_crash :
    (∀ (pet : List ℚ) (opt : ℕ) (lag_max freq : ℚ) (fs fus : ℕ)
        (legacy : Bool),
      create_fine_shift_regressors pet opt lag_max none freq fs fus legacy =
        .error .typeError) ∧
    (create_physio_regressor (fun _ _ _ _ _ => (0, [])) [(0 : ℚ), 1]
        [(0 : ℚ), 0, 0] 1 1 (some 9) none none none true false false
        true).error = some .typeError ∧
    (create_physio_regressor (fun _ _ _ _ _ => (0, [])) [(0 : ℚ), 1]
        [(0 : ℚ), 0, 0] 1 1 (some 9) none none none true false false
        true).petco2hrf_lagged = none := by
  refine ⟨fun _ _ _ _ _ _ _ => rfl, ?_, ?_⟩ <;>
  · obtain ⟨fu, hfu, hflen⟩ :=
      resample_signal_freqs_length [(0 : ℚ), 1] 1 1 (by norm_num)
        (by norm_num) (by norm_num)
    have hflen2 : fu.length = 2 := by
      rw [hflen]
      norm_num
      decide
    obtain ⟨dm, hdm, -⟩ :=
      export_regressor_ok ([(0 : ℚ), 0, 0].take fu.length) 2
        (by simp [hflen2])
    simp [create_physio_regressor, hfu, hdm, pyTruthyQ,
      create_fine_shift_regressors]

/-- C8: flag policy of `create_physio_regressor`.  Part one: when lagged
regression is requested with a falsy `lag_max`, the lag bank result is
`None`, no `TypeError` is raised, and whenever the pipeline got as far as
exporting the single regressor it finished without error and logged the
`missingLagMax` warning.  Part two: when cross correlation is skipped the
bulk shift is fixed at 0 and the exported single regressor is the export of
the regressor slice starting at index 0 (of the upsampled functional
signal's length). -/
theorem create_physio_flag_policy (xc : XCorrFn) (fa pet : List ℚ)
    (tr freq : ℚ) (lag_max lag_min trial_len : Option ℚ)
    (n_trials : Option ℕ) (lagged legacy ax skip : Bool)
    (htr : 0 < tr) (hfreq : 0 < freq) (hlen : 2 ≤ fa.length) :
    (lagged = true → pyTruthyQ lag_max = false →
      (create_physio_regressor xc fa pet tr freq lag_max lag_min trial_len
          n_trials lagged legacy ax skip).petco2hrf_lagged = none ∧
      (create_physio_regressor xc fa pet tr freq lag_max lag_min trial_len
          n_trials lagged legacy ax skip).error ≠ some .typeError ∧
      ((create_physio_regressor xc fa pet tr freq lag_max lag_min trial_len
          n_trials lagged legacy ax skip).petco2hrf_demean ≠ none →
        (create_physio_regressor xc fa pet tr freq lag_max lag_min trial_len
          n_trials lagged legacy ax skip).error = none ∧
        Warn.missingLagMax ∈ (create_physio_regressor xc fa pet tr freq
          lag_max lag_min trial_len n_trials lagged legacy ax
          skip).warnings)) ∧
    (skip = true →
      ∃ fu, resample_signal_freqs fa (1 / tr) freq = .ok fu ∧
        (create_physio_regressor xc fa pet tr freq lag_max lag_min trial_len
          n_trials lagged legacy ax skip).optshift = some 0 ∧
        (create_physio_regressor xc fa pet tr freq lag_max lag_min trial_len
          n_trials lagged legacy ax skip).petco2hrf_demean =
          (export_regressor (pet.take fu.length) fa.length).toOption) := by
  obtain ⟨fu, hfu, -⟩ :=
    resample_signal_freqs_length fa (1 / tr) freq hlen
      (by positivity) hfreq
  constructor
  · intro hl hf
    simp only [create_physio_regressor, hfu, hl, hf, Bool.and_false,
      Bool.false_eq_true, if_false, if_true]
    rcases hbulk : (if skip = true then (([] : List Warn), Except.ok 0)
        else compute_bulk_shift xc fu pet freq trial_len n_trials ax) with
      ⟨ws, br⟩
    cases br with
    | error e =>
      have he : e = .exception := by
        by_cases hskip : skip = true
        · rw [if_pos hskip] at hbulk
          injection hbulk with h1 h2
          simp at h2
        · rw [if_neg hskip] at hbulk
          exact compute_bulk_shift_error xc fu pet freq trial_len n_trials ax
            ws e hbulk
      subst he
      refine ⟨rfl, by simp, ?_⟩
      intro hdm
      simp at hdm
    | ok v =>
      cases hexp : export_regressor ((pet.drop v).take fu.length) fa.length
        with
      | error e =>
        have he := export_regressor_error _ _ _ hexp
        subst he
        simp only [hexp]
        refine ⟨by simp, by simp, ?_⟩
        intro hdm
        simp at hdm
      | ok dm =>
        simp only [hexp]
        refine ⟨by simp, by simp, ?_⟩
        intro _
        exact ⟨by simp, by simp⟩
  · intro hskip
    subst hskip
    refine ⟨fu, hfu, ?_⟩
    simp only [create_physio_regressor, hfu, List.drop_zero,
      eq_self_iff_true, if_true]
    cases hexp : export_regressor (pet.take fu.length) fa.length with
    | error e =>
      simp [hexp, Except.toOption]
    | ok dm =>
      simp only [hexp]
      constructor
      · split
        · split <;> rfl
        · split <;> rfl
      · have hopt : (Except.ok dm : Except PyErr (List ℚ)).toOption =
          some dm := rfl
        rw [hopt]
        split
        · split <;> rfl
        · split <;> rfl

/-- C8 witness: with cross correlation skipped and lagged regression
requested without `lag_max`, the pipeline finishes with a `None` lag bank
and the warning logged. -/
theorem create_physio_flag_policy_witness :
    (create_physio_regressor (fun _ _ _ _ _ => (0, [])) [(0 : ℚ), 1]
        [(0 : ℚ), 0, 0] 1 1 none none none none true false false
        true).petco2hrf_lagged = none ∧
    Warn.missingLagMax ∈ (create_physio_regressor (fun _ _ _ _ _ => (0, []))
        [(0 : ℚ), 1] [(0 : ℚ), 0, 0] 1 1 none none none none true false false
        true).warnings := by
  have h := create_physio_flag_policy (fun _ _ _ _ _ => (0, [])) [(0 : ℚ), 1]
    [(0 : ℚ), 0, 0] 1 1 none none none none true false false true
    (by norm_num) (by norm_num) (by norm_num)
  have ha := h.1 rfl rfl
  obtain ⟨fu, hfu, hopt, hdm⟩ := h.2 rfl
  obtain ⟨fu2, hfu2, hflen⟩ :=
    resample_signal_freqs_length [(0 : ℚ), 1] (1 / 1) 1 (by norm_num)
      (by norm_num) (by norm_num)
  have hfueq : fu = fu2 := by
    rw [hfu] at hfu2
    exact Except.ok.inj hfu2
  have hflen2 : fu.length = 2 := by
    rw [hfueq, hflen]
    norm_num
    decide
  obtain ⟨dm, hdmok, -⟩ :=
    export_regressor_ok ([(0 : ℚ), 0, 0].take fu.length)
      ([(0 : ℚ), 1].length) (by simp [hflen2])
  have hne : (create_physio_regressor (fun _ _ _ _ _ => (0, [])) [(0 : ℚ), 1]
      [(0 : ℚ), 0, 0] 1 1 none none none none true false false
      true).petco2hrf_demean ≠ none := by
    rw [hdm, hdmok]
    simp [Except.toOption]
  exact ⟨ha.1, (ha.2.2 hne).2⟩

end Phys2cvr
